import Mathlib

/-!
Verification of the BlueDisplay piano sketches.

The repository holds two revisions of the same Arduino/ESP32 sketch:
`src/piano2.ino` (the "Corrected Version") and `src/unnamed/part_000`
(an earlier revision).  Both share the note tables and the button
callback; the tone-generation tasks differ (`piano2.ino` re-checks
`currentFrequency` after every DAC write, `part_000` does not).

We embed both, faithfully to the C++ source:
  * `notes`, `noteNames`      — the two parallel constant arrays;
  * `buttonCallback`          — the key-event handler (the linear scan of
                                the `for` loop is rendered as `findNote`
                                over the zipped table, first match wins);
  * `period2Aux`/`period2Run` — the inner per-period loop of
                                `piano2.ino`'s `toneTask`, parameterised
                                by an observation schedule `obs : ℕ → ℤ`
                                giving the value of the volatile
                                `currentFrequency` read right after the
                                i-th sample write;
  * `part0PeriodRun`          — the inner per-period loop of `part_000`'s
                                `toneTask`, which performs no mid-period
                                read (its result ignores `obs`);
  * `iter2`/`toneRun2`, `iter0`/`toneRun0`
                              — the outer `while (true)` loops of the two
                                tasks, one list entry per iteration.

Machine-integer detail kept in the model: the comparison
`frequency != currentFrequency` in `piano2.ino` compares a `uint32_t`
with an `int`, so the `int` is converted to `uint32_t` first (`u32`).
The `(uint8_t)` / `(int)` cast of the float sample value truncates
toward zero, which for the nonnegative values produced here is the floor
(`dacSample`).  Float arithmetic is modelled over ℝ.
-/

namespace Piano

/-- `const int notes[] = {262, 294, 330, 349, 392, 440, 494, 523};` -/
def notes : List ℤ := [262, 294, 330, 349, 392, 440, 494, 523]

/-- `const char* noteNames[] = {"C", "D", "E", "F", "G", "A", "B", "C5"};` -/
def noteNames : List String := ["C", "D", "E", "F", "G", "A", "B", "C5"]

/-- `NUM_KEYS = sizeof(notes) / sizeof(notes[0])` = 8. -/
def NUM_KEYS : ℕ := 8

/-- The two parallel arrays viewed as one association table, in index
order; `buttonCallback`'s loop scans it front to back. -/
def noteTable : List (String × ℤ) := noteNames.zip notes

/-- The linear scan of `buttonCallback`'s `for` loop: return the
frequency of the first entry whose name equals the callback string
(`strcmp(...) == 0`), `none` when the loop falls through. -/
def findNote (label : String) : List (String × ℤ) → Option ℤ
  | [] => none
  | (n, f) :: rest => if label = n then some f else findNote label rest

/-- `buttonCallback(const char* aCallbackString, int aValue)`, as a
function from the prior value of `currentFrequency` to the new one.
`aValue == 1` is a press: scan the table, set the matched frequency,
leave the state unchanged on fall-through.  Anything else is treated as
a release: set `currentFrequency = 0`. -/
def buttonCallback (aCallbackString : String) (aValue : ℤ) (cur : ℤ) : ℤ :=
  if aValue = 1 then
    match findNote aCallbackString noteTable with
    | some f => f
    | none => cur
  else 0

/-- One key event: the callback string and the `aValue` argument. -/
def applyEvent (cur : ℤ) (e : String × ℤ) : ℤ :=
  buttonCallback e.1 e.2 cur

/-- `const uint32_t sampling_rate = 20000;` (both revisions). -/
def samplingRate : ℕ := 20000

/-- Conversion of the `int` value of `currentFrequency` to `uint32_t`,
performed by C before comparing it with the `uint32_t` local
`frequency` and before the assignment `frequency = currentFrequency`. -/
def u32 (c : ℤ) : ℤ := c % 2 ^ 32

/-- Same conversion, landing in ℕ (the value of a `uint32_t`). -/
def u32n (c : ℤ) : ℕ := (c % 2 ^ 32).toNat

/-- `float val = 127.5 + 127.5 * sin(2 * PI * i / period_samples);` -/
noncomputable def sineVal (i N : ℕ) : ℝ :=
  127.5 + 127.5 * Real.sin (2 * Real.pi * i / N)

/-- The sample byte written by `dacWrite`: the `(uint8_t)` cast of
`piano2.ino` (and the `(int)` cast of `part_000`) truncates the float
toward zero, which on the nonnegative `val` is the floor. -/
noncomputable def dacSample (i N : ℕ) : ℤ := ⌊sineVal i N⌋

/-- The samples of one complete, uninterrupted waveform period of
`N = sampling_rate / frequency` samples. -/
noncomputable def fullPeriod (N : ℕ) : List ℤ :=
  (List.range N).map (fun i => dacSample i N)

/-- The per-period `for` loop of `piano2.ino`'s `toneTask`, body
`dacWrite; if (frequency != currentFrequency) break; delay;`.
`f` is the `uint32_t` local `frequency`, `N = period_samples`,
`obs i` the `int` read from the volatile `currentFrequency` right after
writing sample `i`, `rem` the remaining iterations (`N - i`), `i` the
loop counter.  The comparison converts `obs i` to `uint32_t`. -/
noncomputable def period2Aux (f : ℕ) (N : ℕ) (obs : ℕ → ℤ) :
    ℕ → ℕ → List ℤ
  | 0, _ => []
  | rem + 1, i =>
    dacSample i N ::
      (if u32 (obs i) = (f : ℤ) then period2Aux f N obs rem (i + 1) else [])

/-- One entry into the `frequency > 0` branch of `piano2.ino`:
`period_samples = sampling_rate / frequency`, then the sample loop. -/
noncomputable def period2Run (f : ℕ) (obs : ℕ → ℤ) : List ℤ :=
  period2Aux f (samplingRate / f) obs (samplingRate / f) 0

/-- One entry into the `currentFrequency != 0` branch of `part_000`:
`period = sampling_rate / frequency`, then a sample loop whose body is
only `dacWrite; delay;` — it performs no read of `currentFrequency`, so
the whole period is written and the observation schedule is ignored
(the parameter is kept so that both revisions offer the same
interface). -/
noncomputable def part0PeriodRun (f : ℕ) (_obs : ℕ → ℤ) : List ℤ :=
  fullPeriod (samplingRate / f)

/-- One iteration of `piano2.ino`'s outer `while (true)` loop, given the
value `c` read from `currentFrequency` at the top of the iteration.
After `if (frequency != currentFrequency) frequency = currentFrequency;`
the local `frequency` equals the `uint32_t` conversion of `c` in either
branch, so the iteration needs no carried state.  The list is the
sequence of bytes written to the DAC during the iteration. -/
noncomputable def iter2 (c : ℤ) (obs : ℕ → ℤ) : List ℤ :=
  if 0 < u32n c then period2Run (u32n c) obs else [128]

/-- A run of `piano2.ino`'s `toneTask`: one `(c, obs)` pair per outer
iteration, outputs concatenated. -/
noncomputable def toneRun2 : List (ℤ × (ℕ → ℤ)) → List ℤ
  | [] => []
  | (c, obs) :: rest => iter2 c obs ++ toneRun2 rest

/-- One iteration of `part_000`'s outer loop: `if (currentFrequency != 0)`
play one full period of `frequency = currentFrequency`, else write the
midpoint `128`. -/
noncomputable def iter0 (c : ℤ) (obs : ℕ → ℤ) : List ℤ :=
  if c ≠ 0 then part0PeriodRun (u32n c) obs else [128]

/-- A run of `part_000`'s `toneTask`. -/
noncomputable def toneRun0 : List (ℤ × (ℕ → ℤ)) → List ℤ
  | [] => []
  | (c, obs) :: rest => iter0 c obs ++ toneRun0 rest

/-! ### Lemmas about the sample values -/

/-- The first sample of a period: `sin(0) = 0`, so the float value is
`127.5` and the integer cast truncates it to `127`. -/
lemma dacSample_zero (N : ℕ) : dacSample 0 N = 127 := by
  have h : sineVal 0 N = 127.5 := by simp [sineVal]
  rw [dacSample, h]
  norm_num [Int.floor_eq_iff]

/-- Every sample byte lies in `[0, 255]`. -/
lemma dacSample_range (i N : ℕ) : 0 ≤ dacSample i N ∧ dacSample i N ≤ 255 := by
  have hub : Real.sin (2 * Real.pi * i / N) ≤ 1 := Real.sin_le_one _
  have hlb : -1 ≤ Real.sin (2 * Real.pi * i / N) := Real.neg_one_le_sin _
  have h0 : (0 : ℝ) ≤ sineVal i N := by unfold sineVal; linarith
  have h255 : sineVal i N ≤ 255 := by unfold sineVal; linarith
  unfold dacSample
  refine ⟨Int.le_floor.mpr (by exact_mod_cast h0), ?_⟩
  have hle : (⌊sineVal i N⌋ : ℝ) ≤ 255 := le_trans (Int.floor_le _) h255
  exact_mod_cast hle

/-! ### Lemmas about the per-period loops -/

/-- If every mid-period read returns the playing frequency, the loop of
`piano2.ino` never takes the `break` and writes every remaining
sample. -/
lemma period2Aux_no_change (f N : ℕ) (obs : ℕ → ℤ)
    (h : ∀ k, u32 (obs k) = (f : ℤ)) :
    ∀ rem i, period2Aux f N obs rem i =
      (List.range rem).map (fun k => dacSample (i + k) N) := by
  intro rem
  induction rem with
  | zero => intro i; rfl
  | succ r ih =>
    intro i
    rw [period2Aux, if_pos (h i), ih (i + 1), List.range_succ_eq_map,
      List.map_cons, List.map_map]
    refine congrArg₂ _ (by rw [Nat.add_zero]) (List.map_congr_left ?_)
    intro a _
    simp only [Function.comp_apply]
    congr 1
    omega

/-- Under unchanged observations, one entry of the sounding branch of
`piano2.ino` emits exactly one full waveform period. -/
lemma period2Run_no_change (f : ℕ) (obs : ℕ → ℤ)
    (h : ∀ k, u32 (obs k) = (f : ℤ)) :
    period2Run f obs = fullPeriod (samplingRate / f) := by
  rw [period2Run, period2Aux_no_change f _ obs h, fullPeriod]
  exact List.map_congr_left fun a _ => by rw [Nat.zero_add]

/-- When the first differing read happens at check `j` (relative to the
loop counter `i`), the loop writes samples `i, …, i + j` and breaks:
`j + 1` writes. -/
lemma period2Aux_change_length (f N : ℕ) (obs : ℕ → ℤ) :
    ∀ rem i j, j < rem →
      (∀ k, k < j → u32 (obs (i + k)) = (f : ℤ)) →
      u32 (obs (i + j)) ≠ (f : ℤ) →
      (period2Aux f N obs rem i).length = j + 1 := by
  intro rem
  induction rem with
  | zero => intro i j hj; exact absurd hj (Nat.not_lt_zero j)
  | succ r ih =>
    intro i j hj hbef hch
    cases j with
    | zero =>
      rw [Nat.add_zero] at hch
      rw [period2Aux, if_neg hch]
      rfl
    | succ j' =>
      have h0 : u32 (obs i) = (f : ℤ) := by
        have := hbef 0 (Nat.succ_pos j')
        rwa [Nat.add_zero] at this
      rw [period2Aux, if_pos h0, List.length_cons]
      have hlen : (period2Aux f N obs r (i + 1)).length = j' + 1 := by
        refine ih (i + 1) j' (by omega) (fun k hk => ?_) ?_
        · have := hbef (k + 1) (by omega)
          rwa [show i + (k + 1) = i + 1 + k by omega] at this
        · rwa [show i + (j' + 1) = i + 1 + j' by omega] at hch
      rw [hlen]

/-- The head of a nonempty sounding period is the sample at index 0. -/
lemma period2Run_head (f : ℕ) (obs : ℕ → ℤ) (h : 0 < samplingRate / f) :
    (period2Run f obs).head? = some (dacSample 0 (samplingRate / f)) := by
  obtain ⟨n, hn⟩ : ∃ n, samplingRate / f = n + 1 :=
    ⟨samplingRate / f - 1, by omega⟩
  rw [period2Run, hn, period2Aux]
  rfl

/-- `part_000`'s period loop has no `break`: it is one full period. -/
lemma part0PeriodRun_length (f : ℕ) (obs : ℕ → ℤ) :
    (part0PeriodRun f obs).length = samplingRate / f := by
  simp [part0PeriodRun, fullPeriod]

/-! ### Lemmas about the key-event handler -/

lemma findNote_eq_none (label : String) :
    ∀ t : List (String × ℤ), (∀ p ∈ t, label ≠ p.1) → findNote label t = none := by
  intro t
  induction t with
  | nil => intro _; rfl
  | cons p rest ih =>
    intro h
    obtain ⟨n, f⟩ := p
    have hn : label ≠ n := h (n, f) (List.mem_cons_self _ _)
    simp only [findNote, if_neg hn]
    exact ih fun q hq => h q (List.mem_cons_of_mem _ hq)

lemma findNote_mem_snd (label : String) (f : ℤ) :
    ∀ t : List (String × ℤ), findNote label t = some f → f ∈ t.map Prod.snd := by
  intro t
  induction t with
  | nil => intro h; exact absurd h (by simp [findNote])
  | cons p rest ih =>
    intro h
    obtain ⟨n, g⟩ := p
    by_cases hn : label = n
    · simp only [findNote, if_pos hn, Option.some.injEq] at h
      simp [← h]
    · simp only [findNote, if_neg hn] at h
      simpa using Or.inr (ih h)

lemma noteTable_snd : noteTable.map Prod.snd = notes := by decide

lemma noteTable_fst : noteTable.map Prod.fst = noteNames := by decide

/-- Both press outcomes preserve the state invariant: every value the
callback can write is `0`, a table frequency, or the prior value. -/
lemma buttonCallback_inv (label : String) (v cur : ℤ)
    (h : cur = 0 ∨ cur ∈ notes) :
    buttonCallback label v cur = 0 ∨ buttonCallback label v cur ∈ notes := by
  by_cases hv : v = 1
  · cases hfn : findNote label noteTable with
    | none => simpa [buttonCallback, hv, hfn] using h
    | some f =>
      right
      have hmem := findNote_mem_snd label f noteTable hfn
      rw [noteTable_snd] at hmem
      simpa [buttonCallback, hv, hfn] using hmem
  · simp [buttonCallback, hv]

/-! ### Claims about the key-event handler -/

/-- C3: for every (name, frequency) pair of the note table, a press
event (`aValue = 1`) carrying that name sets `currentFrequency` to
exactly the paired frequency, whatever it held before; the scan is
linear and the first match wins. -/
theorem press_sets_paired_frequency :
    ∀ p ∈ noteTable, ∀ cur : ℤ, buttonCallback p.1 1 cur = p.2 := by
  intro p hp cur
  fin_cases hp <;> rfl

theorem press_sets_paired_frequency_witness :
    ("C", (262 : ℤ)) ∈ noteTable ∧ buttonCallback "C" 1 99 = 262 :=
  ⟨by decide, press_sets_paired_frequency ("C", 262) (by decide) 99⟩

/-- C4: a release event (`aValue = 0`) sets `currentFrequency` to `0`,
for every label and every prior value. -/
theorem release_resets_frequency :
    ∀ (label : String) (cur : ℤ), buttonCallback label 0 cur = 0 := by
  intro label cur
  rfl

/-- C9: every `aValue` other than `1` takes the `else` branch of the
handler and behaves exactly as a release, setting `currentFrequency`
to `0`. -/
theorem nonpress_value_acts_as_release :
    ∀ (label : String) (v cur : ℤ), v ≠ 1 → buttonCallback label v cur = 0 := by
  intro label v cur hv
  simp [buttonCallback, hv]

theorem nonpress_value_acts_as_release_witness :
    (2 : ℤ) ≠ 1 ∧ buttonCallback "C" 2 262 = 0 :=
  ⟨by decide, nonpress_value_acts_as_release "C" 2 262 (by decide)⟩

/-- C6: a press event whose label matches no note name leaves
`currentFrequency` unchanged — the scan falls through and the handler
returns without touching any state. -/
theorem unknown_label_press_is_noop (label : String) (cur : ℤ)
    (h : label ∉ noteNames) : buttonCallback label 1 cur = cur := by
  have hnone : findNote label noteTable = none := by
    apply findNote_eq_none
    intro p hp hlab
    apply h
    rw [hlab, ← noteTable_fst]
    exact List.mem_map_of_mem Prod.fst hp
  simp [buttonCallback, hnone]

theorem unknown_label_press_is_noop_witness :
    "X" ∉ noteNames ∧ buttonCallback "X" 1 440 = 440 :=
  ⟨by decide, unknown_label_press_is_noop "X" 440 (by decide)⟩

/-- C5: starting from the initial value `0`, after any sequence of
key-event handler calls `currentFrequency` is `0` or one of the eight
table frequencies. -/
theorem currentFrequency_invariant :
    ∀ events : List (String × ℤ),
      events.foldl applyEvent 0 = 0 ∨ events.foldl applyEvent 0 ∈ notes := by
  have key : ∀ (events : List (String × ℤ)) (cur : ℤ),
      (cur = 0 ∨ cur ∈ notes) →
      (events.foldl applyEvent cur = 0 ∨ events.foldl applyEvent cur ∈ notes) := by
    intro events
    induction events with
    | nil => intro cur h; exact h
    | cons e rest ih =>
      intro cur h
      exact ih (applyEvent cur e) (buttonCallback_inv e.1 e.2 cur h)
  intro events
  exact key events 0 (Or.inl rfl)

/-! ### Claims about the tone generator -/

/-- C1 (amended): for `f > 0` and an uninterrupted period (every
mid-period read returns `f`), both revisions write exactly
`⌊samplingRate / f⌋` samples, every sample lies in `[0, 255]`, sample
`i` is the truncation of `127.5 + 127.5·sin(2πi/N)`, and the first
sample of a nonempty period is `127` — the truncation of the float
midpoint `127.5`, not `128`. -/
theorem sounding_period_shape (f : ℕ) (hf : 0 < f) (obs : ℕ → ℤ)
    (hobs : ∀ i, u32 (obs i) = (f : ℤ)) :
    (period2Run f obs).length = samplingRate / f ∧
    (∀ s ∈ period2Run f obs, 0 ≤ s ∧ s ≤ 255) ∧
    period2Run f obs =
      (List.range (samplingRate / f)).map
        (fun i : ℕ => ⌊(127.5 + 127.5 *
          Real.sin (2 * Real.pi * (i : ℝ) / ((samplingRate / f : ℕ) : ℝ)))⌋) ∧
    (0 < samplingRate / f → (period2Run f obs).head? = some 127) ∧
    part0PeriodRun f obs =
      (List.range (samplingRate / f)).map
        (fun i : ℕ => ⌊(127.5 + 127.5 *
          Real.sin (2 * Real.pi * (i : ℝ) / ((samplingRate / f : ℕ) : ℝ)))⌋) := by
  have heq : period2Run f obs = fullPeriod (samplingRate / f) :=
    period2Run_no_change f obs hobs
  refine ⟨?_, ?_, ?_, ?_, rfl⟩
  · rw [heq]; simp [fullPeriod]
  · intro s hs
    rw [heq, fullPeriod] at hs
    obtain ⟨i, _, hi⟩ := List.mem_map.mp hs
    rw [← hi]
    exact dacSample_range i _
  · rw [heq]; rfl
  · intro hN
    rw [period2Run_head f obs hN, dacSample_zero]

theorem sounding_period_shape_witness :
    0 < 262 ∧ (∀ _i : ℕ, u32 (262 : ℤ) = ((262 : ℕ) : ℤ)) ∧
    ((period2Run 262 (fun _ => (262 : ℤ))).length = samplingRate / 262 ∧
    (∀ s ∈ period2Run 262 (fun _ => (262 : ℤ)), 0 ≤ s ∧ s ≤ 255) ∧
    period2Run 262 (fun _ => (262 : ℤ)) =
      (List.range (samplingRate / 262)).map
        (fun i : ℕ => ⌊(127.5 + 127.5 *
          Real.sin (2 * Real.pi * (i : ℝ) / ((samplingRate / 262 : ℕ) : ℝ)))⌋) ∧
    (0 < samplingRate / 262 →
      (period2Run 262 (fun _ => (262 : ℤ))).head? = some 127) ∧
    part0PeriodRun 262 (fun _ => (262 : ℤ)) =
      (List.range (samplingRate / 262)).map
        (fun i : ℕ => ⌊(127.5 + 127.5 *
          Real.sin (2 * Real.pi * (i : ℝ) / ((samplingRate / 262 : ℕ) : ℝ)))⌋)) :=
  ⟨by decide, fun _ => by decide,
    sounding_period_shape 262 (by decide) (fun _ => (262 : ℤ))
      (fun _ => (by decide : u32 (262 : ℤ) = ((262 : ℕ) : ℤ)))⟩

/-- C1 counterexample: the first sample of a full sounding period at
262 Hz is `127` (the truncation of `127.5`), not the midpoint `128`
asserted by the claim. -/
theorem first_sample_is_127_not_128 :
    (period2Run 262 (fun _ => (262 : ℤ))).head? = some 127 ∧ (127 : ℤ) ≠ 128 := by
  constructor
  · rw [period2Run_head 262 _ (by decide), dacSample_zero]
  · decide

/-- C2 (amended): in `piano2.ino`, after each sample write the loop
re-reads `currentFrequency` and breaks on a difference, so when the
first differing read is at check `j` exactly `j + 1` samples of the old
waveform are written (at most one write after the change is observable);
in `part_000` there is no mid-period read and the full period of
`samplingRate / f` samples is written regardless of the observations. -/
theorem midperiod_abort (f : ℕ) (obs : ℕ → ℤ) (j : ℕ)
    (hj : j < samplingRate / f)
    (hbef : ∀ k, k < j → u32 (obs k) = (f : ℤ))
    (hch : u32 (obs j) ≠ (f : ℤ)) :
    (period2Run f obs).length = j + 1 ∧
    (part0PeriodRun f obs).length = samplingRate / f := by
  refine ⟨?_, part0PeriodRun_length f obs⟩
  rw [period2Run]
  refine period2Aux_change_length f _ obs _ 0 j hj (fun k hk => ?_) ?_
  · rw [Nat.zero_add]; exact hbef k hk
  · rw [Nat.zero_add]; exact hch

theorem midperiod_abort_witness :
    0 < samplingRate / 262 ∧ u32 ((fun _ => (440 : ℤ)) 0) ≠ ((262 : ℕ) : ℤ) ∧
    ((period2Run 262 (fun _ => (440 : ℤ))).length = 0 + 1 ∧
      (part0PeriodRun 262 (fun _ => (440 : ℤ))).length = samplingRate / 262) :=
  ⟨by decide, by decide,
    midperiod_abort 262 (fun _ => (440 : ℤ)) 0 (by decide)
      (fun k hk => absurd hk (Nat.not_lt_zero k)) (by decide)⟩

/-- C2 counterexample: `part_000`'s tone loop never re-reads
`currentFrequency` mid-period; with the frequency changed to 440 before
the very first check, it still writes all 76 samples of the 262 Hz
period — far more than the one further sample the claim allows. -/
theorem no_abort_in_part0 :
    u32 ((fun _ => (440 : ℤ)) 0) ≠ ((262 : ℕ) : ℤ) ∧
    (part0PeriodRun 262 (fun _ => (440 : ℤ))).length = 76 ∧
    ¬(part0PeriodRun 262 (fun _ => (440 : ℤ))).length ≤ 0 + 1 := by
  refine ⟨by decide, ?_, ?_⟩
  · rw [part0PeriodRun_length]
    decide
  · rw [part0PeriodRun_length]
    decide

/-- C7: writing the value `currentFrequency` already holds does not
abort or restart the period in progress: with every mid-period read
returning the playing frequency `f`, both revisions emit the unchanged
full-period sample sequence. -/
theorem same_value_write_idempotent (f : ℕ) (hf : f < 2 ^ 32) (obs : ℕ → ℤ)
    (hobs : ∀ i, obs i = (f : ℤ)) :
    period2Run f obs = fullPeriod (samplingRate / f) ∧
    part0PeriodRun f obs = fullPeriod (samplingRate / f) := by
  refine ⟨period2Run_no_change f obs fun k => ?_, rfl⟩
  rw [hobs k, u32]
  exact Int.emod_eq_of_lt (by positivity) (by exact_mod_cast hf)

theorem same_value_write_idempotent_witness :
    (262 : ℕ) < 2 ^ 32 ∧ (∀ i : ℕ, (fun _ => (262 : ℤ)) i = ((262 : ℕ) : ℤ)) ∧
    (period2Run 262 (fun _ => (262 : ℤ)) = fullPeriod (samplingRate / 262) ∧
      part0PeriodRun 262 (fun _ => (262 : ℤ)) = fullPeriod (samplingRate / 262)) :=
  ⟨by decide, fun _ => rfl,
    same_value_write_idempotent 262 (by decide) (fun _ => (262 : ℤ)) (fun _ => rfl)⟩

/-- C8: when the tone loop observes `currentFrequency = 0`, both
revisions take the silent branch and write exactly the midpoint byte
`128`; as long as every observation is `0`, a run of `n` iterations
writes `n` midpoint bytes and nothing else. -/
theorem silent_outputs_midpoint :
    ∀ (n : ℕ) (obs : ℕ → ℤ),
      iter2 0 obs = [128] ∧ iter0 0 obs = [128] ∧
      toneRun2 (List.replicate n ((0 : ℤ), obs)) = List.replicate n 128 ∧
      toneRun0 (List.replicate n ((0 : ℤ), obs)) = List.replicate n 128 := by
  intro n obs
  have h2 : iter2 0 obs = [128] := by simp [iter2, u32n]
  have h0 : iter0 0 obs = [128] := by simp [iter0]
  refine ⟨h2, h0, ?_, ?_⟩
  · induction n with
    | zero => rfl
    | succ k ih => simp [List.replicate_succ, toneRun2, h2, ih]
  · induction n with
    | zero => rfl
    | succ k ih => simp [List.replicate_succ, toneRun0, h0, ih]

/-- C10: every table frequency gives an integer-division period length
`20000 / f` between 38 and 76 inclusive, so the sounding branch always
writes at least one sample per outer iteration. -/
theorem note_period_bounds :
    ∀ f ∈ notes, 38 ≤ samplingRate / f.toNat ∧ samplingRate / f.toNat ≤ 76 ∧
      1 ≤ samplingRate / f.toNat ∧
      ∀ obs : ℕ → ℤ, 1 ≤ (period2Run f.toNat obs).length := by
  have hpos : ∀ (g : ℕ) (obs : ℕ → ℤ), 0 < samplingRate / g →
      1 ≤ (period2Run g obs).length := by
    intro g obs hg
    obtain ⟨n, hn⟩ : ∃ n, samplingRate / g = n + 1 :=
      ⟨samplingRate / g - 1, by omega⟩
    rw [period2Run, hn, period2Aux, List.length_cons]
    omega
  intro f hf
  fin_cases hf <;>
    exact ⟨by decide, by decide, by decide, fun obs => hpos _ obs (by decide)⟩

theorem note_period_bounds_witness :
    (262 : ℤ) ∈ notes ∧
    (38 ≤ samplingRate / (262 : ℤ).toNat ∧ samplingRate / (262 : ℤ).toNat ≤ 76 ∧
      1 ≤ samplingRate / (262 : ℤ).toNat ∧
      ∀ obs : ℕ → ℤ, 1 ≤ (period2Run (262 : ℤ).toNat obs).length) :=
  ⟨by decide, note_period_bounds 262 (by decide)⟩

end Piano
